import Mathlib

/-!
Verification of mobcsv (`src/main.rs`), a CSV filter that normalizes a
mobile-phone field and keeps only records matching a fixed pattern.

Strings are modelled as `List Char`. The two compiled regular expressions
of the source are embedded as executable functions:

* `MOB_REGEX_STR = "^((20)|(966))([0-9]{9,11})$"` becomes `mobMatch`;
* `REPLACER_RE = ^(0)|^(00)|[!@+#$%\-^&*() ]` with `replace_all(.., "")`
  becomes `replacerReplaceAll`.  The Rust `regex` crate uses
  leftmost-first alternation and its `^` anchor (multi-line mode off)
  matches only at position 0 of the haystack, also when `find_at` resumes
  at a later offset.  Hence on a string starting with `'0'` the first
  alternative `^(0)` wins (length 1) and the alternative `^(00)` can never
  match; after that first match the scan resumes at offset 1 where `^`
  cannot match, so every later match is a single character of the class.
  The net effect is: drop one leading `'0'` if present, then delete every
  class character from the rest.
-/

namespace Mobcsv

/-- One CSV row, `struct Record { ph: String, name: String, count: u16 }`.
The phone is a list of characters; `count` is a `u16` modelled as `Nat`
(the program never performs arithmetic on it, it is only carried along). -/
structure Record where
  ph : List Char
  name : String
  count : Nat
deriving DecidableEq, Repr

/-- The character class `[!@+#$%\-^&*() ]` of `REPLACER_RE`. -/
def badChar (c : Char) : Bool :=
  c == '!' || c == '@' || c == '+' || c == '#' || c == '$' || c == '%' ||
  c == '-' || c == '^' || c == '&' || c == '*' || c == '(' || c == ')' || c == ' '

/-- Rust `str::trim`: remove leading and trailing whitespace. -/
def trimList (l : List Char) : List Char :=
  ((l.dropWhile Char.isWhitespace).reverse.dropWhile Char.isWhitespace).reverse

/-- The effect of `REPLACER_RE.replace_all(s, "")` (see the header comment
for why the `^(00)` alternative is dead code): if the string starts with
`'0'`, that single character is removed by the anchored alternative
`^(0)`; every occurrence of the character class in the remainder is
removed. -/
def replacerReplaceAll (l : List Char) : List Char :=
  match l with
  | '0' :: rest => rest.filter (fun c => !badChar c)
  | _ => l.filter (fun c => !badChar c)

/-- The new phone value computed by `remove_bad_chars` (main.rs:79):
`REPLACER_RE.replace_all(&record.ph.trim(), "").trim()`. -/
def remove_bad_chars_ph (l : List Char) : List Char :=
  trimList (replacerReplaceAll (trimList l))

/-- `remove_bad_chars` (main.rs:76-81): rewrite the phone field in place,
leaving `name` and `count` untouched. -/
def remove_bad_chars (r : Record) : Record :=
  { r with ph := remove_bad_chars_ph r.ph }

/-- The new phone value computed by `standardize_ph` (main.rs:83-105):
inspect the first character; on `'1'` prepend `"20"`, on `'5'` prepend
`"966"`, otherwise leave the string unchanged (the `'0'` branch of the
source is commented out). -/
def standardize_ph_ph (l : List Char) : List Char :=
  match l with
  | '1' :: _ => ['2', '0'] ++ l
  | '5' :: _ => ['9', '6', '6'] ++ l
  | _ => l

/-- `standardize_ph` (main.rs:83-105): rewrite the phone field in place,
leaving `name` and `count` untouched. -/
def standardize_ph (r : Record) : Record :=
  { r with ph := standardize_ph_ph r.ph }

/-- The repetition `[0-9]{9,11}` anchored at the end: all characters are
ASCII digits and there are between 9 and 11 of them. -/
def digitRun (l : List Char) : Bool :=
  l.all Char.isDigit && decide (9 ≤ l.length) && decide (l.length ≤ 11)

/-- `MOB_RE.is_match` for `MOB_REGEX_STR = "^((20)|(966))([0-9]{9,11})$"`:
the whole string is one of the two country codes followed by 9 to 11
digits.  `is_match` only asks whether some alternative matches the whole
string, so alternation order is irrelevant here. -/
def mobMatch (l : List Char) : Bool :=
  (l.take 2 == ['2', '0'] && digitRun (l.drop 2)) ||
  (l.take 3 == ['9', '6', '6'] && digitRun (l.drop 3))

/-- `is_good_ph` (main.rs:107-116): normalize the record with
`remove_bad_chars` then `standardize_ph`, and accept it exactly when the
resulting phone matches `MOB_RE`. -/
def is_good_ph (r : Record) : Option Record :=
  let r1 := standardize_ph (remove_bad_chars r)
  if mobMatch r1.ph then some r1 else none

/-- The row loop of `main` (main.rs:64-70).  `rdr.deserialize()` yields a
sequence of per-row decode results; `let record = r?` aborts the run on
the first decode error, otherwise the record passes through `is_good_ph`
and, when accepted, is written.  The result is the list of written records
together with the decode error that aborted the run, if any. -/
def runPipeline : List (Except String Record) → List Record × Option String
  | [] => ([], none)
  | .error e :: _ => ([], some e)
  | .ok r :: rest =>
    let out := runPipeline rest
    match is_good_ph r with
    | some d => (d :: out.1, out.2)
    | none => out

/-- The validation pattern `^((20)|(966))[0-9]{9,11}$` stated as the spec
words it: exactly one of the two country codes `20` or `966` followed by
9 to 11 digits and nothing else. -/
def MobPattern (l : List Char) : Prop :=
  ∃ rest, (l = ['2', '0'] ++ rest ∨ l = ['9', '6', '6'] ++ rest) ∧
    (∀ c ∈ rest, c.isDigit) ∧ 9 ≤ rest.length ∧ rest.length ≤ 11

/-- The character-class strip on its own (the `[!@+#$%\-^&*() ]` part of
`REPLACER_RE`, without the anchored leading-zero alternatives). -/
def stripClass (l : List Char) : List Char :=
  l.filter (fun c => !badChar c)

/-- The full normalization applied by `is_good_ph` before testing. -/
def normalize_ph (l : List Char) : List Char :=
  standardize_ph_ph (remove_bad_chars_ph l)

lemma is_good_ph_eq (r : Record) :
    is_good_ph r =
      if mobMatch (normalize_ph r.ph) then
        some ⟨normalize_ph r.ph, r.name, r.count⟩
      else none := rfl

/-- The embedded regex agrees with the pattern as worded by the spec. -/
lemma mobMatch_iff (l : List Char) : mobMatch l = true ↔ MobPattern l := by
  unfold mobMatch MobPattern digitRun
  simp only [Bool.or_eq_true, Bool.and_eq_true, beq_iff_eq, List.all_eq_true,
    decide_eq_true_eq]
  constructor
  · rintro (⟨ht, ⟨hd, h9⟩, h11⟩ | ⟨ht, ⟨hd, h9⟩, h11⟩)
    · exact ⟨l.drop 2, Or.inl (by rw [← ht]; exact (List.take_append_drop 2 l).symm),
        hd, h9, h11⟩
    · exact ⟨l.drop 3, Or.inr (by rw [← ht]; exact (List.take_append_drop 3 l).symm),
        hd, h9, h11⟩
  · rintro ⟨rest, h | h, hd, h9, h11⟩ <;> subst h
    · exact Or.inl ⟨rfl, ⟨by simpa using hd, by simpa using h9⟩, by simpa using h11⟩
    · exact Or.inr ⟨rfl, ⟨by simpa using hd, by simpa using h9⟩, by simpa using h11⟩

/-- C1: a record is accepted (`is_good_ph` returns `some`, namely the
normalized record) exactly when its phone field, after normalization,
matches `^((20)|(966))[0-9]{9,11}$` — one of the two country codes `20` or
`966` followed by 9 to 11 digits and nothing else; otherwise `is_good_ph`
returns `none`. -/
theorem is_good_ph_iff_pattern (r : Record) :
    (is_good_ph r = some ⟨normalize_ph r.ph, r.name, r.count⟩ ↔
      MobPattern (normalize_ph r.ph)) ∧
    (is_good_ph r = none ↔ ¬ MobPattern (normalize_ph r.ph)) := by
  have hiff := mobMatch_iff (normalize_ph r.ph)
  rw [is_good_ph_eq r, ← hiff]
  rcases Bool.eq_false_or_eq_true (mobMatch (normalize_ph r.ph)) with h | h <;>
    simp [h]

/-- C2 (code bug): the claim and the repo's own test
`should_pass_good_numbers` (main.rs:149,157) expect the leading `"00"` of
`"00201116613061"` to be stripped and the record accepted, but the
alternative `^(0)` of `REPLACER_RE` shadows `^(00)` under leftmost-first
matching, so only one `'0'` is removed: the phone normalizes to
`"0201116613061"` and the record is rejected. -/
theorem double_zero_prefix_rejected :
    remove_bad_chars_ph ("00201116613061".toList) = "0201116613061".toList ∧
    is_good_ph ⟨"00201116613061".toList, "test2", 0⟩ = none := by
  exact ⟨rfl, rfl⟩

/-- C4 (counterexample): the full strip step performed by
`remove_bad_chars` is not idempotent — on the phone `"00"` one application
yields `"0"` and a second application yields `""`. -/
theorem remove_bad_chars_not_idempotent :
    remove_bad_chars (remove_bad_chars ⟨"00".toList, "test4", 0⟩) ≠
      remove_bad_chars ⟨"00".toList, "test4", 0⟩ := by
  decide

/-- C4 (amended): the character-class strip (removal of
`{! @ + # $ % - ^ & * ( ) space}` alone, without the anchored leading-zero
alternatives of `REPLACER_RE`) is idempotent. -/
theorem stripClass_idempotent (l : List Char) :
    stripClass (stripClass l) = stripClass l := by
  simp [stripClass, List.filter_filter]

lemma standardize_ph_ph_other (l : List Char)
    (h1 : l.head? ≠ some '1') (h5 : l.head? ≠ some '5') :
    standardize_ph_ph l = l := by
  cases l with
  | nil => rfl
  | cons c rest =>
    simp only [List.head?_cons, ne_eq, Option.some.injEq] at h1 h5
    unfold standardize_ph_ph
    split
    · next heq => rw [List.cons.injEq] at heq; exact absurd heq.1 h1
    · next heq => rw [List.cons.injEq] at heq; exact absurd heq.1 h5
    · rfl

/-- C3: when the stripped phone starts with `'1'` the inference prepends
`"20"` to the unchanged string; when it starts with `'5'` it prepends
`"966"`; any other phone (the empty one included) is left unchanged. -/
theorem standardize_first_char (r : Record) :
    (r.ph.head? = some '1' → (standardize_ph r).ph = ['2', '0'] ++ r.ph) ∧
    (r.ph.head? = some '5' → (standardize_ph r).ph = ['9', '6', '6'] ++ r.ph) ∧
    (r.ph.head? ≠ some '1' → r.ph.head? ≠ some '5' → standardize_ph r = r) := by
  refine ⟨?_, ?_, ?_⟩
  · intro h
    show standardize_ph_ph r.ph = ['2', '0'] ++ r.ph
    cases hl : r.ph with
    | nil => rw [hl] at h; exact Option.noConfusion h
    | cons c rest =>
      rw [hl, List.head?_cons, Option.some.injEq] at h
      subst h
      rfl
  · intro h
    show standardize_ph_ph r.ph = ['9', '6', '6'] ++ r.ph
    cases hl : r.ph with
    | nil => rw [hl] at h; exact Option.noConfusion h
    | cons c rest =>
      rw [hl, List.head?_cons, Option.some.injEq] at h
      subst h
      rfl
  · intro h1 h5
    show ({ r with ph := standardize_ph_ph r.ph } : Record) = r
    rw [standardize_ph_ph_other r.ph h1 h5]

theorem standardize_first_char_witness :
    ((['1', '2'] : List Char).head? = some '1' ∧
      (standardize_ph ⟨['1', '2'], "a", 0⟩).ph = ['2', '0'] ++ ['1', '2']) ∧
    ((['5', '2'] : List Char).head? = some '5' ∧
      (standardize_ph ⟨['5', '2'], "a", 0⟩).ph = ['9', '6', '6'] ++ ['5', '2']) ∧
    standardize_ph ⟨['7', '2'], "a", 0⟩ = ⟨['7', '2'], "a", 0⟩ :=
  ⟨⟨rfl, (standardize_first_char ⟨['1', '2'], "a", 0⟩).1 rfl⟩,
   ⟨rfl, (standardize_first_char ⟨['5', '2'], "a", 0⟩).2.1 rfl⟩,
   (standardize_first_char ⟨['7', '2'], "a", 0⟩).2.2 (by decide) (by decide)⟩

lemma filterMap_length_add (rs : List Record) :
    (rs.filterMap is_good_ph).length +
      (rs.filter (fun r => (is_good_ph r).isNone)).length = rs.length := by
  induction rs with
  | nil => rfl
  | cons r rest ih =>
    cases h : is_good_ph r <;>
      simp [List.filterMap_cons, List.filter_cons, h] <;> omega

/-- C5: on a well-formed input (every row decodes), the pipeline succeeds
and its output is exactly the ordered `filterMap` of `is_good_ph` over the
input — rejected records never appear, and the output row count is the
input row count minus the number of rejected rows. -/
theorem pipeline_filters (rs : List Record) :
    runPipeline (rs.map Except.ok) = (rs.filterMap is_good_ph, none) ∧
    (rs.filterMap is_good_ph).length =
      rs.length - (rs.filter (fun r => (is_good_ph r).isNone)).length := by
  constructor
  · induction rs with
    | nil => rfl
    | cons r rest ih =>
      show runPipeline (Except.ok r :: rest.map Except.ok) = _
      cases h : is_good_ph r <;>
        simp [runPipeline, h, ih, List.filterMap_cons]
  · have := filterMap_length_add rs
    omega

/-- C6: a record accepted by `is_good_ph` keeps its `name` and `count`
fields unchanged; only the phone field is rewritten. -/
theorem accepted_preserves_name_count (r d : Record)
    (h : is_good_ph r = some d) : d.name = r.name ∧ d.count = r.count := by
  rw [is_good_ph_eq] at h
  split at h
  · injection h with h
    rw [← h]
    exact ⟨rfl, rfl⟩
  · exact Option.noConfusion h

theorem accepted_preserves_name_count_witness :
    is_good_ph ⟨"+201116613061".toList, "test5", 7⟩ =
      some ⟨"201116613061".toList, "test5", 7⟩ ∧
    ((⟨"201116613061".toList, "test5", 7⟩ : Record).name =
        (⟨"+201116613061".toList, "test5", 7⟩ : Record).name ∧
      (⟨"201116613061".toList, "test5", 7⟩ : Record).count =
        (⟨"+201116613061".toList, "test5", 7⟩ : Record).count) :=
  ⟨by decide, accepted_preserves_name_count _ _ (by decide)⟩

/-- C7: a phone that already starts with `"20"` or `"966"` after the strip
steps is left unchanged by the prefix inference — its first character is
`'2'` or `'9'`, neither of which triggers a branch. -/
theorem no_double_prefix (r : Record)
    (h : (∃ t, r.ph = ['2', '0'] ++ t) ∨ (∃ t, r.ph = ['9', '6', '6'] ++ t)) :
    standardize_ph r = r := by
  have h15 : r.ph.head? ≠ some '1' ∧ r.ph.head? ≠ some '5' := by
    rcases h with ⟨t, ht⟩ | ⟨t, ht⟩ <;> rw [ht] <;>
      refine ⟨?_, ?_⟩ <;>
        · simp only [List.cons_append, List.head?_cons, ne_eq, Option.some.injEq]
          decide
  show ({ r with ph := standardize_ph_ph r.ph } : Record) = r
  rw [standardize_ph_ph_other r.ph h15.1 h15.2]

theorem no_double_prefix_witness :
    (∃ t, (⟨"2011".toList, "n", 5⟩ : Record).ph = ['2', '0'] ++ t) ∧
    standardize_ph ⟨"2011".toList, "n", 5⟩ = ⟨"2011".toList, "n", 5⟩ :=
  ⟨⟨['1', '1'], by decide⟩,
   no_double_prefix ⟨"2011".toList, "n", 5⟩ (Or.inl ⟨['1', '1'], by decide⟩)⟩

/-- C8: a decode error on one row is fatal — the pipeline stops with that
row's error, the rows after it are never processed or written, and only
the survivors of the rows before it appear in the output. -/
theorem decode_error_fatal (pre : List Record) (e : String)
    (post : List (Except String Record)) :
    runPipeline (pre.map Except.ok ++ Except.error e :: post) =
      (pre.filterMap is_good_ph, some e) := by
  induction pre with
  | nil => rfl
  | cons r rest ih =>
    show runPipeline (Except.ok r :: (rest.map Except.ok ++ _)) = _
    cases h : is_good_ph r <;>
      simp [runPipeline, h, ih, List.filterMap_cons]

/-- C9: every record accepted by `is_good_ph` has a phone made only of
ASCII digits, starting with `"20"` or `"966"`, of total length between 11
and 14 characters. -/
theorem accepted_ph_invariant (r d : Record) (h : is_good_ph r = some d) :
    (∀ c ∈ d.ph, c.isDigit) ∧
    ((∃ t, d.ph = ['2', '0'] ++ t) ∨ (∃ t, d.ph = ['9', '6', '6'] ++ t)) ∧
    11 ≤ d.ph.length ∧ d.ph.length ≤ 14 := by
  rw [is_good_ph_eq] at h
  split at h
  · next hm =>
    have hdph : d.ph = normalize_ph r.ph := by
      injection h with h
      rw [← h]
    rw [hdph]
    rcases (mobMatch_iff _).mp hm with ⟨rest, hl | hl, hd, h9, h11⟩
    · rw [hl]
      refine ⟨List.forall_mem_append.mpr ⟨by decide, hd⟩,
        Or.inl ⟨rest, rfl⟩, ?_, ?_⟩ <;> simp [List.length_append] <;> omega
    · rw [hl]
      refine ⟨List.forall_mem_append.mpr ⟨by decide, hd⟩,
        Or.inr ⟨rest, rfl⟩, ?_, ?_⟩ <;> simp [List.length_append] <;> omega
  · exact Option.noConfusion h

theorem accepted_ph_invariant_witness :
    is_good_ph ⟨"540029129".toList, "test7", 0⟩ =
      some ⟨"966540029129".toList, "test7", 0⟩ ∧
    ((∀ c ∈ "966540029129".toList, c.isDigit) ∧
      ((∃ t, "966540029129".toList = ['2', '0'] ++ t) ∨
        (∃ t, "966540029129".toList = ['9', '6', '6'] ++ t)) ∧
      11 ≤ "966540029129".toList.length ∧ "966540029129".toList.length ≤ 14) :=
  ⟨by decide, accepted_ph_invariant ⟨"540029129".toList, "test7", 0⟩
    ⟨"966540029129".toList, "test7", 0⟩ (by decide)⟩

/-- C10: the accept/reject decision depends only on the phone field — two
records with equal phones are accepted or rejected together, and when both
are accepted the output phones are equal. -/
theorem decision_depends_only_on_ph (r1 r2 : Record) (h : r1.ph = r2.ph) :
    (is_good_ph r1).isSome = (is_good_ph r2).isSome ∧
    ∀ d1 d2, is_good_ph r1 = some d1 → is_good_ph r2 = some d2 →
      d1.ph = d2.ph := by
  rw [is_good_ph_eq, is_good_ph_eq, h]
  constructor
  · rcases Bool.eq_false_or_eq_true (mobMatch (normalize_ph r2.ph)) with hm | hm <;>
      simp [hm]
  · intro d1 d2 h1 h2
    rcases Bool.eq_false_or_eq_true (mobMatch (normalize_ph r2.ph)) with hm | hm <;>
      rw [hm] at h1 h2 <;> simp at h1 h2
    rw [← h1, ← h2]

theorem decision_depends_only_on_ph_witness :
    (⟨"1116613061".toList, "a", 1⟩ : Record).ph =
      (⟨"1116613061".toList, "b", 2⟩ : Record).ph ∧
    (is_good_ph ⟨"1116613061".toList, "a", 1⟩).isSome =
      (is_good_ph ⟨"1116613061".toList, "b", 2⟩).isSome :=
  ⟨rfl, (decision_depends_only_on_ph ⟨"1116613061".toList, "a", 1⟩
    ⟨"1116613061".toList, "b", 2⟩ rfl).1⟩

end Mobcsv
